import Mathlib

/-!
Verification development for the DOA (direction of arrival) analysis in
`src/analysis/doa.py` (class `DOADetector`).

The Python code is shallowly embedded as follows.

* Audio samples are modelled as rationals (`ℚ`); the analysis decisions in the
  code (peak finding, energy gating, admissibility checks, confidences) are
  exact arithmetic comparisons, so this layer is fully computable.
* Angles go through `math.asin` and are modelled in `ℝ` via `Real.arcsin`.
* Fallible Python code (exceptions such as `ValueError` from
  `scipy.signal.find_peaks` and `ZeroDivisionError` from `//` and
  `np.average`) is modelled with `Except String`.
* `mic_data` (the four microphone channels extracted from the 6-channel file,
  columns 2..5) is taken as the input; file decoding is an external
  collaborator and out of scope.
* Python `int(...)` truncation, `round(...)` banker's rounding, `//` floor
  division, `%` modulo and list slicing are modelled explicitly
  (`pythonInt`, `pythonRound`, `Int.fdiv`, `realMod`, `pySlice`).
* `scipy.signal.correlate(x, y, mode=_full)` is the full cross-correlation
  `z[k] = sum_j x[j] * y[j - (k - (len(y) - 1))]`.
* `scipy.signal.find_peaks(z, distance=d)` first collects strict local maxima
  (plateau midpoints, boundaries excluded), then removes peaks closer than
  `d` to a higher-priority kept peak, processing peaks from highest value
  down; it raises `ValueError` when `d < 1`.
-/

set_option maxRecDepth 100000

/-- Python `int()` applied to a real-valued quantity: truncation toward zero. -/
def pythonInt (q : ℚ) : ℤ := if 0 ≤ q then ⌊q⌋ else ⌈q⌉

/-- Python `round()` to an integer: round half to even. -/
def pythonRound (q : ℚ) : ℤ :=
  if q - ⌊q⌋ < 1/2 then ⌊q⌋
  else if 1/2 < q - ⌊q⌋ then ⌊q⌋ + 1
  else if ⌊q⌋ % 2 = 0 then ⌊q⌋ else ⌊q⌋ + 1

/-- Python list slicing `l[a:b]` (step 1): negative indices wrap once, then
both bounds are clamped to `[0, len(l)]`. -/
def pySlice {α : Type} (l : List α) (a b : ℤ) : List α :=
  let n : ℤ := l.length
  let a' : ℤ := if a < 0 then max 0 (n + a) else min a n
  let b' : ℤ := if b < 0 then max 0 (n + b) else min b n
  (l.take b'.toNat).drop a'.toNat

/-- One sample frame of `mic_data`: the four microphone channel amplitudes. -/
structure Frame where
  c0 : ℚ
  c1 : ℚ
  c2 : ℚ
  c3 : ℚ
deriving DecidableEq

/-- Column access `window[:, i]` for one frame; channels are indexed 0..3. -/
def Frame.ch (f : Frame) : ℕ → ℚ
  | 0 => f.c0
  | 1 => f.c1
  | 2 => f.c2
  | 3 => f.c3
  | _ => 0

/-- Sample access with zero outside the signal (used to express correlation). -/
def getZ (y : List ℚ) (i : ℤ) : ℚ :=
  if 0 ≤ i then y.getD i.toNat 0 else 0

/-- Cross-correlation value of `x` against `y` at integer lag `lag`:
`sum_j x[j] * y[j - lag]`. -/
def corrAt (x y : List ℚ) (lag : ℤ) : ℚ :=
  ((List.range x.length).map (fun j => x.getD j 0 * getZ y ((j : ℤ) - lag))).sum

/-- `scipy.signal.correlate(x, y, mode=_full)`: array of length
`len(x) + len(y) - 1` whose entry `k` is the correlation at lag
`k - (len(y) - 1)`. -/
def correlate (x y : List ℚ) : List ℚ :=
  (List.range (x.length + y.length - 1)).map
    (fun k => corrAt x y ((k : ℤ) - ((y.length : ℤ) - 1)))

/-- `[l, r]` is a maximal plateau forming a strict local maximum of `z`
(scipy `_local_maxima_1d`): the value is constant on `[l, r]` and strictly
larger than both neighbours; the first and last sample never start or end
a peak. -/
def isPlateauPeak (z : List ℚ) (l r : ℕ) : Bool :=
  decide (1 ≤ l) && decide (l ≤ r) && decide (r + 1 < z.length) &&
  decide (z.getD (l - 1) 0 < z.getD l 0) &&
  (List.range (r - l + 1)).all (fun t => z.getD (l + t) 0 == z.getD l 0) &&
  decide (z.getD (r + 1) 0 < z.getD l 0)

/-- All strict local maxima of `z`, reported at plateau midpoints, in
ascending index order. -/
def localMaxima (z : List ℚ) : List ℕ :=
  (List.range z.length).filterMap (fun l =>
    ((List.range z.length).find? (fun r => isPlateauPeak z l r)).map
      (fun r => (l + r) / 2))

/-- Processing priority used by the scipy distance filter: index `a` is
handled before `b` when its peak value is larger (ties: larger index first,
matching a stable ascending argsort traversed from its end). -/
def procBefore (hs : List ℚ) (a b : ℕ) : Bool :=
  decide (hs.getD b 0 < hs.getD a 0) ||
  (hs.getD a 0 == hs.getD b 0 && decide (b ≤ a))

/-- Insertion step of the insertion sort computing the processing order. -/
def orderInsert (le : ℕ → ℕ → Bool) (a : ℕ) : List ℕ → List ℕ
  | [] => [a]
  | b :: bs => if le a b then a :: b :: bs else b :: orderInsert le a bs

/-- Indices `0..n-1` sorted into scipy's peak processing order. -/
def procOrder (hs : List ℚ) (n : ℕ) : List ℕ :=
  (List.range n).foldr (orderInsert (procBefore hs)) []

/-- One step of `_select_by_peak_distance`: if peak `j` is still kept, drop
every other peak lying closer than `dist` to it. -/
def applyKeep (ps : List ℕ) (dist : ℤ) (keep : List Bool) (j : ℕ) : List Bool :=
  if keep.getD j false then
    (List.range keep.length).map (fun k =>
      if k = j then true
      else if ((ps.getD k 0 : ℤ) - (ps.getD j 0 : ℤ)).natAbs < dist.toNat then false
      else keep.getD k false)
  else keep

/-- Keep-mask of `_select_by_peak_distance` over the peak list `ps` with
values `hs`. -/
def keepMask (ps : List ℕ) (hs : List ℚ) (dist : ℤ) : List Bool :=
  (procOrder hs ps.length).foldl (applyKeep ps dist) (List.replicate ps.length true)

/-- The peaks surviving the distance filter, in their original order. -/
def survivors (ps : List ℕ) (hs : List ℚ) (dist : ℤ) : List ℕ :=
  (ps.zip (keepMask ps hs dist)).filterMap (fun pb => if pb.2 then some pb.1 else none)

/-- `scipy.signal.find_peaks(z, distance=dist)`: raises `ValueError` when
`dist < 1`, otherwise the distance-filtered strict local maxima. -/
def find_peaks (z : List ℚ) (dist : ℤ) : Except String (List ℕ) :=
  if dist < 1 then Except.error "ValueError: distance must be greater or equal to 1"
  else
    let ps := localMaxima z
    Except.ok (survivors ps (ps.map (fun p => z.getD p 0)) dist)

/-- Comparison step of `np.argmax`: keep the current best index `b` unless
`q` holds a strictly larger value (so the earliest maximum wins ties). -/
def pickStep (z : List ℚ) (b q : ℕ) : ℕ :=
  if z.getD b 0 < z.getD q 0 then q else b

/-- `peaks[np.argmax(correlation[peaks])]`: the peak with the largest
correlation value, the earliest one on ties. -/
def pickBest (z : List ℚ) : List ℕ → Option ℕ
  | [] => none
  | p :: ps => some (ps.foldl (pickStep z) p)

/-- `np.max(np.abs(z))` (with junk value `0` on the empty array, which the
code never reaches). -/
def maxAbsList (z : List ℚ) : ℚ := (z.map (fun q => |q|)).foldl max 0

/-- Selection among the found peaks: take the strongest
(`peaks[np.argmax(correlation[peaks])]`), convert it to a lag relative to
`mid_point = len(correlation) // 2`, discard it when the lag exceeds `md`
(`if abs(delay) > max_delay: continue`), and compute the confidence
`abs(peak_height) / np.max(np.abs(correlation))`. -/
def pairSelPick (md : ℤ) (z : List ℚ) (ps : List ℕ) : Option (ℤ × ℚ) :=
  match pickBest z ps with
  | none => none
  | some pk =>
    let d : ℤ := (pk : ℤ) - ((z.length / 2 : ℕ) : ℤ)
    if md < |d| then none
    else some (d, |z.getD pk 0| / maxAbsList z)

/-- The per-pair body of `_calculate_doa`, up to the angle computation:
correlate the two channels, find the peaks, and select one.
Returns `none` where the Python loop executes `continue`. -/
def pairSelOf (md : ℤ) (x y : List ℚ) : Except String (Option (ℤ × ℚ)) :=
  (find_peaks (correlate x y) md).map (pairSelPick md (correlate x y))

/-- Just the selected lag of a sensor pair (the delay the code keeps). -/
def codeSelDelay (md : ℤ) (x y : List ℚ) : Except String (Option ℤ) :=
  (pairSelOf md x y).map (fun o => o.map (fun s => s.1))

/-- The admissible lags `-md..md` of the specification. -/
def lagRange (md : ℤ) : List ℤ :=
  (List.range (2 * md.toNat + 1)).map (fun t => (t : ℤ) - md)

/-- Modelled from the spec: the tie-break order of §4.2 — higher correlation
first, then smaller absolute lag, then smaller signed lag. -/
def specBetter (x y : List ℚ) (a b : ℤ) : Bool :=
  decide (corrAt x y b < corrAt x y a) ||
  (corrAt x y a == corrAt x y b &&
    (decide (|a| < |b|) || (|a| == |b| && decide (a < b))))

/-- Modelled from the spec: "within the admissible range, select the lag with
the single highest correlation value (ties broken by smallest absolute lag,
then smaller signed lag)" — the spec-side selection the claim describes. -/
def specSelectDelay (x y : List ℚ) (md : ℤ) : Option ℤ :=
  match lagRange md with
  | [] => none
  | l :: ls => some (ls.foldl (fun b a => if specBetter x y a b then a else b) l)

/-- What `_calculate_doa` keeps of a pair before the angle formula: the lower
mic index (which fixes base angle and orientation), the selected lag and the
confidence. -/
structure PairSel where
  mic1 : ℕ
  delay : ℤ
  conf : ℚ
deriving DecidableEq

/-- `mic_pairs = [(0,1), (1,2), (2,3), (3,0)]`. -/
def micPairs : List (ℕ × ℕ) := [(0, 1), (1, 2), (2, 3), (3, 0)]

/-- One iteration of the pair loop of `_calculate_doa`. -/
def pairStep (md : ℤ) (w : List Frame) (p : ℕ × ℕ) : Except String (Option PairSel) :=
  match pairSelOf md (w.map (fun f => f.ch p.1)) (w.map (fun f => f.ch p.2)) with
  | Except.error e => Except.error e
  | Except.ok none => Except.ok none
  | Except.ok (some s) => Except.ok (some ⟨p.1, s.1, s.2⟩)

/-- The pair loop: accumulate the estimates of the pairs that produce one,
aborting on an exception. -/
def collectPairs (f : ℕ × ℕ → Except String (Option PairSel)) :
    List (ℕ × ℕ) → Except String (List PairSel)
  | [] => Except.ok []
  | p :: ps =>
    match f p with
    | Except.error e => Except.error e
    | Except.ok none => collectPairs f ps
    | Except.ok (some s) => (collectPairs f ps).map (fun rest => s :: rest)

/-- `max_delay = int(self.radius * 2 / self.sound_speed * self.sample_rate)`. -/
def max_delay (r c : ℚ) (sr : ℕ) : ℤ := pythonInt (r * 2 / c * (sr : ℚ))

/-- All pair estimates of one window (the `angles`/`confidences` lists of the
code, with the angle still in its `PairSel` form). -/
def pairSels (r c : ℚ) (sr : ℕ) (w : List Frame) : Except String (List PairSel) :=
  collectPairs (pairStep (max_delay r c sr) w) micPairs

/-- `energy = np.sum(window ** 2)`: total squared-sample energy of the window
across the four channels. -/
def energy (w : List Frame) : ℚ :=
  (w.map (fun f => f.c0 ^ 2 + f.c1 ^ 2 + f.c2 ^ 2 + f.c3 ^ 2)).sum

/-- `hop_size = int(window_size * (1 - overlap))`. -/
def hop_size (ws : ℕ) (ov : ℚ) : ℤ := pythonInt ((ws : ℚ) * (1 - ov))

/-- `num_windows = (len(mic_data) - window_size) // hop_size + 1`
(Python floor division). -/
def num_windows (len ws : ℕ) (hop : ℤ) : ℤ :=
  Int.fdiv ((len : ℤ) - (ws : ℤ)) hop + 1

/-- The argument handed to `math.asin`:
`(delay / sample_rate * sound_speed) / (2 * radius)`. -/
def ratioQ (r c : ℚ) (sr : ℕ) (d : ℤ) : ℚ :=
  ((d : ℚ) / (sr : ℚ) * c) / (2 * r)

/-- `self.radius = 0.032`. -/
def radius : ℚ := 4/125

/-- `self.sound_speed = 343.0`. -/
def sound_speed : ℚ := 343

/-- Python `%` on reals with positive modulus: `x - y * floor(x / y)`. -/
noncomputable def realMod (x y : ℝ) : ℝ := x - y * ⌊x / y⌋

/-- The angle the code computes for one pair estimate:
`base_angle ± degrees(asin(ratio))`, normalized by `% 360`; the sign is `+`
for `mic1 in [0, 2]` and `-` otherwise. -/
noncomputable def pairAngleDeg (r c : ℚ) (sr : ℕ) (s : PairSel) : ℝ :=
  let pa : ℝ := (180 / Real.pi) * Real.arcsin ((ratioQ r c sr s.delay : ℚ) : ℝ)
  let raw : ℝ :=
    if s.mic1 = 0 ∨ s.mic1 = 2 then ((90 * s.mic1 : ℕ) : ℝ) + pa
    else ((90 * s.mic1 : ℕ) : ℝ) - pa
  realMod raw 360

/-- `max(-1, min(1, x))`: the clamp the specification prescribes before
`asin` (the code itself applies no clamp). -/
noncomputable def clamp (x : ℝ) : ℝ := max (-1) (min 1 x)

/-- Modelled from the spec: the per-pair angle formula of the claim —
`(baseAngleDegrees + orientationSign * degrees(asin(clamped ratio))) mod 360`
with `baseAngleDegrees = 90 * m1` and `orientationSign = +1` iff `m1` is
even. -/
noncomputable def specPairAngleDeg (r c : ℚ) (sr : ℕ) (s : PairSel) : ℝ :=
  let pa : ℝ := (180 / Real.pi) * Real.arcsin (clamp ((ratioQ r c sr s.delay : ℚ) : ℝ))
  let sign : ℝ := if s.mic1 % 2 = 0 then 1 else -1
  realMod (((90 * s.mic1 : ℕ) : ℝ) + sign * pa) 360

/-- Fusion step of `_calculate_doa`: `(0, 0)` when no pair produced an
estimate, else the confidence-weighted mean angle (`np.average`, which
raises `ZeroDivisionError` when the weights sum to zero) and the unweighted
mean confidence. -/
noncomputable def fuseSels (r c : ℚ) (sr : ℕ) : List PairSel → Except String (ℝ × ℚ)
  | [] => Except.ok (0, 0)
  | sels =>
    if (sels.map PairSel.conf).sum = 0 then
      Except.error "ZeroDivisionError: weights sum to zero"
    else
      Except.ok
        ((sels.map (fun s => (s.conf : ℝ) * pairAngleDeg r c sr s)).sum /
            (((sels.map PairSel.conf).sum : ℚ) : ℝ),
         (sels.map PairSel.conf).sum / (sels.length : ℚ))

/-- `_calculate_doa`: all pair estimates, then fusion. -/
noncomputable def calculate_doa (r c : ℚ) (sr : ℕ) (w : List Frame) :
    Except String (ℝ × ℚ) :=
  (pairSels r c sr w).bind (fuseSels r c sr)

open Classical in
/-- `_get_direction`: quadrant classification of an angle in degrees. -/
noncomputable def get_direction (a : ℝ) : String :=
  if 45 ≤ a ∧ a < 135 then "East"
  else if 135 ≤ a ∧ a < 225 then "South"
  else if 225 ≤ a ∧ a < 315 then "West"
  else "North"

/-- One printed line of `process_audio`: timestamp, angle, confidence and
direction (the direction falls back to `?` when the confidence is at most
`0.3`). -/
structure Row where
  ts : ℚ
  angle : ℝ
  conf : ℚ
  direction : String

/-- The body of the window loop of `process_audio` for window index `i`:
slice the window, compute its timestamp and energy, and emit one `Row` when
the energy gate `energy > 1e-6` passes. -/
noncomputable def windowRow (r c : ℚ) (sr ws : ℕ) (hop : ℤ) (data : List Frame)
    (i : ℕ) : Except String (Option Row) :=
  let start : ℤ := (i : ℤ) * hop
  let w := pySlice data start (start + (ws : ℤ))
  let ts : ℚ := (start : ℚ) / (sr : ℚ)
  if 1/1000000 < energy w then
    match calculate_doa r c sr w with
    | Except.error e => Except.error e
    | Except.ok (a, cf) =>
      Except.ok (some ⟨ts, a, cf, if 3/10 < cf then get_direction a else "?"⟩)
  else Except.ok none

/-- The window loop: run the window body over the given indices in order,
collecting the emitted rows and aborting on an exception. -/
noncomputable def runWindows (f : ℕ → Except String (Option Row)) :
    List ℕ → Except String (List Row)
  | [] => Except.ok []
  | i :: is =>
    match f i with
    | Except.error e => Except.error e
    | Except.ok none => runWindows f is
    | Except.ok (some row) => (runWindows f is).map (fun rest => row :: rest)

/-- `process_audio` on the already-extracted 4-channel `mic_data`: compute
`hop_size` (a `hop_size` of zero makes the `//` in `num_windows` raise
`ZeroDivisionError`), then process every window. -/
noncomputable def process_audio (r c : ℚ) (sr : ℕ) (data : List Frame)
    (ws : ℕ) (ov : ℚ) : Except String (List Row) :=
  let hop := hop_size ws ov
  if hop = 0 then Except.error "ZeroDivisionError: integer division or modulo by zero"
  else runWindows (windowRow r c sr ws hop data) (List.range (num_windows data.length ws hop).toNat)

deriving instance DecidableEq for Except

/-- Window used as a concrete input below: every sensor pair's correlation is
maximal only at the array boundary, so `find_peaks` reports no peak for any
pair and the `angles` list stays empty while the energy is `4`. -/
def dataC2 : List Frame := [⟨0, 1, 0, 1⟩, ⟨0, 0, 0, 0⟩, ⟨1, 0, 1, 0⟩]

/-- First channel of a concrete sensor pair input for the peak-search claim. -/
def xC1 : List ℚ := [0, 0, 0, 0, 0, 0, 0, 1]

/-- Second channel of that pair: the resulting correlation has its only local
maximum at lag `0` but rises monotonically toward the out-of-range boundary,
so the admissible lag `2` carries a strictly higher correlation value than
the lag the code selects. -/
def yC1 : List ℚ := [9, 8, 7, 6, 5, 4, 1, 3]

/-! ### Arithmetic helpers -/

lemma pythonInt_cast_le (q : ℚ) (h : 0 ≤ q) : ((pythonInt q : ℤ) : ℚ) ≤ q := by
  simp only [pythonInt, if_pos h]
  exact_mod_cast Int.floor_le q

lemma realMod_eq_fract (x y : ℝ) (hy : y ≠ 0) :
    realMod x y = y * Int.fract (x / y) := by
  simp only [realMod, Int.fract]
  field_simp

lemma realMod_nonneg (x y : ℝ) (hy : 0 < y) : 0 ≤ realMod x y := by
  rw [realMod_eq_fract x y hy.ne']
  exact mul_nonneg hy.le (Int.fract_nonneg _)

lemma realMod_lt (x y : ℝ) (hy : 0 < y) : realMod x y < y := by
  rw [realMod_eq_fract x y hy.ne']
  calc y * Int.fract (x / y) < y * 1 := mul_lt_mul_of_pos_left (Int.fract_lt_one _) hy
  _ = y := mul_one y

/-! ### Fold and list helpers -/

lemma le_foldl_max (l : List ℚ) (b : ℚ) : b ≤ l.foldl max b := by
  induction l generalizing b with
  | nil => simp
  | cons a l ih => exact le_trans (le_max_left b a) (ih (max b a))

lemma mem_le_foldl_max (l : List ℚ) (b a : ℚ) (ha : a ∈ l) : a ≤ l.foldl max b := by
  induction l generalizing b with
  | nil => cases ha
  | cons x l ih =>
    rcases List.mem_cons.mp ha with h | h
    · subst h
      exact le_trans (le_max_right b a) (le_foldl_max l (max b a))
    · exact ih (max b x) h

lemma maxAbsList_nonneg (z : List ℚ) : 0 ≤ maxAbsList z := le_foldl_max _ 0

lemma abs_getD_le_maxAbsList (z : List ℚ) (k : ℕ) :
    |z.getD k 0| ≤ maxAbsList z := by
  by_cases hk : k < z.length
  · refine mem_le_foldl_max _ 0 _ ?_
    rw [List.getD_eq_getElem z 0 hk]
    exact List.mem_map_of_mem _ (List.getElem_mem hk)
  · rw [List.getD_eq_default _ _ (le_of_not_lt hk)]
    simpa using maxAbsList_nonneg z

lemma sum_sq_eq_zero (l : List ℚ) (h : (l.map (fun q => q ^ 2)).sum = 0) :
    ∀ a ∈ l, a = 0 := by
  induction l with
  | nil => intro a ha; cases ha
  | cons x l ih =>
    intro a ha
    simp only [List.map_cons, List.sum_cons] at h
    have hx : 0 ≤ x ^ 2 := sq_nonneg x
    have hrest : 0 ≤ (l.map (fun q => q ^ 2)).sum := by
      refine List.sum_nonneg ?_
      intro q hq
      simp only [List.mem_map] at hq
      obtain ⟨b, _, hb⟩ := hq
      exact hb ▸ sq_nonneg b
    have hx0 : x ^ 2 = 0 := le_antisymm (by linarith) hx
    have hs0 : (l.map (fun q => q ^ 2)).sum = 0 := by linarith
    rcases List.mem_cons.mp ha with h1 | h1
    · subst h1
      exact pow_eq_zero_iff (by norm_num) |>.mp hx0
    · exact ih hs0 a h1

lemma getD_zero_of_all_zero (l : List ℚ) (h : ∀ a ∈ l, a = 0) (k : ℕ) :
    l.getD k 0 = 0 := by
  by_cases hk : k < l.length
  · rw [List.getD_eq_getElem l 0 hk]
    exact h _ (List.getElem_mem hk)
  · exact List.getD_eq_default _ _ (le_of_not_lt hk)

/-! ### Peak selection helpers -/

lemma pickStep_cases (z : List ℚ) (b q : ℕ) :
    pickStep z b q = b ∨ pickStep z b q = q := by
  unfold pickStep
  split
  · exact Or.inr rfl
  · exact Or.inl rfl

lemma le_pickStep_left (z : List ℚ) (b q : ℕ) :
    z.getD b 0 ≤ z.getD (pickStep z b q) 0 := by
  unfold pickStep
  split
  · exact le_of_lt (by assumption)
  · exact le_refl _

lemma le_pickStep_right (z : List ℚ) (b q : ℕ) :
    z.getD q 0 ≤ z.getD (pickStep z b q) 0 := by
  unfold pickStep
  split
  · exact le_refl _
  · exact le_of_not_lt (by assumption)

lemma foldl_pickStep_spec (z : List ℚ) (ps : List ℕ) (a : ℕ) :
    (ps.foldl (pickStep z) a = a ∨ ps.foldl (pickStep z) a ∈ ps) ∧
    z.getD a 0 ≤ z.getD (ps.foldl (pickStep z) a) 0 ∧
    ∀ q ∈ ps, z.getD q 0 ≤ z.getD (ps.foldl (pickStep z) a) 0 := by
  induction ps generalizing a with
  | nil =>
    exact ⟨Or.inl rfl, le_refl _, fun q hq => absurd hq (List.not_mem_nil q)⟩
  | cons p ps ih =>
    simp only [List.foldl_cons]
    obtain ⟨hmem, hle, hall⟩ := ih (pickStep z a p)
    refine ⟨?_, le_trans (le_pickStep_left z a p) hle, ?_⟩
    · rcases hmem with h | h
      · rcases pickStep_cases z a p with h2 | h2
        · exact Or.inl (h.trans h2)
        · exact Or.inr (List.mem_cons.mpr (Or.inl (h.trans h2)))
      · exact Or.inr (List.mem_cons.mpr (Or.inr h))
    · intro q hq
      rcases List.mem_cons.mp hq with h | h
      · subst h
        exact le_trans (le_pickStep_right z a q) hle
      · exact hall q h

lemma pickBest_spec (z : List ℚ) (ps : List ℕ) (b : ℕ) (h : pickBest z ps = some b) :
    b ∈ ps ∧ ∀ q ∈ ps, z.getD q 0 ≤ z.getD b 0 := by
  cases ps with
  | nil => cases h
  | cons p ps =>
    obtain ⟨hmem, hle, hall⟩ := foldl_pickStep_spec z ps p
    simp only [pickBest, Option.some.injEq] at h
    subst h
    refine ⟨?_, ?_⟩
    · rcases hmem with h | h
      · rw [h]
        exact List.mem_cons_self p ps
      · exact List.mem_cons_of_mem p h
    · intro q hq
      rcases List.mem_cons.mp hq with h | h
      · subst h
        exact hle
      · exact hall q h

/-! ### Inversion lemmas for the pair pipeline -/

lemma pairSelPick_some (md : ℤ) (z : List ℚ) (ps : List ℕ) (d : ℤ) (cf : ℚ)
    (h : pairSelPick md z ps = some (d, cf)) :
    ∃ pk, pickBest z ps = some pk ∧
      d = (pk : ℤ) - ((z.length / 2 : ℕ) : ℤ) ∧
      |d| ≤ md ∧
      cf = |z.getD pk 0| / maxAbsList z := by
  simp only [pairSelPick] at h
  split at h
  · cases h
  next pk hpb =>
    split at h
    · cases h
    next hlt =>
      simp only [Option.some.injEq, Prod.mk.injEq] at h
      obtain ⟨hd, hcf⟩ := h
      exact ⟨pk, hpb, hd.symm, hd ▸ le_of_not_lt hlt, hcf.symm⟩

lemma pairSelOf_ok_some (md : ℤ) (x y : List ℚ) (d : ℤ) (cf : ℚ)
    (h : pairSelOf md x y = Except.ok (some (d, cf))) :
    ∃ ps pk, find_peaks (correlate x y) md = Except.ok ps ∧
      pickBest (correlate x y) ps = some pk ∧
      d = (pk : ℤ) - (((correlate x y).length / 2 : ℕ) : ℤ) ∧
      |d| ≤ md ∧
      cf = |(correlate x y).getD pk 0| / maxAbsList (correlate x y) := by
  simp only [pairSelOf] at h
  cases hfp : find_peaks (correlate x y) md with
  | error e => rw [hfp] at h; cases h
  | ok ps =>
    rw [hfp] at h
    simp only [Except.map, Except.ok.injEq] at h
    obtain ⟨pk, hpb, hd, hdle, hcf⟩ := pairSelPick_some md (correlate x y) ps d cf h
    exact ⟨ps, pk, rfl, hpb, hd, hdle, hcf⟩

lemma pairStep_ok_some (md : ℤ) (w : List Frame) (p : ℕ × ℕ) (s : PairSel)
    (h : pairStep md w p = Except.ok (some s)) :
    s.mic1 = p.1 ∧
    pairSelOf md (w.map (fun f => f.ch p.1)) (w.map (fun f => f.ch p.2)) =
      Except.ok (some (s.delay, s.conf)) := by
  simp only [pairStep] at h
  cases hps : pairSelOf md (w.map (fun f => f.ch p.1)) (w.map (fun f => f.ch p.2)) with
  | error e => rw [hps] at h; cases h
  | ok o =>
    rw [hps] at h
    cases o with
    | none => simp at h
    | some t =>
      simp only [Except.ok.injEq, Option.some.injEq] at h
      subst h
      exact ⟨rfl, rfl⟩

lemma collectPairs_ok_mem (f : ℕ × ℕ → Except String (Option PairSel)) (s : PairSel) :
    ∀ (l : List (ℕ × ℕ)) (sels : List PairSel),
      collectPairs f l = Except.ok sels → s ∈ sels →
      ∃ p ∈ l, f p = Except.ok (some s) := by
  intro l
  induction l with
  | nil =>
    intro sels h hs
    simp only [collectPairs, Except.ok.injEq] at h
    subst h
    cases hs
  | cons p ps ih =>
    intro sels h hs
    simp only [collectPairs] at h
    cases hfp : f p with
    | error e => rw [hfp] at h; cases h
    | ok o =>
      rw [hfp] at h
      cases o with
      | none =>
        obtain ⟨q, hq, hfq⟩ := ih sels h hs
        exact ⟨q, List.mem_cons_of_mem p hq, hfq⟩
      | some t =>
        cases hrest : collectPairs f ps with
        | error e => rw [hrest] at h; cases h
        | ok rest =>
          rw [hrest] at h
          simp only [Except.map, Except.ok.injEq] at h
          subst h
          rcases List.mem_cons.mp hs with h1 | h1
          · exact ⟨p, List.mem_cons_self p ps, by rw [hfp, h1]⟩
          · obtain ⟨q, hq, hfq⟩ := ih rest hrest h1
            exact ⟨q, List.mem_cons_of_mem p hq, hfq⟩

lemma pairSels_conf_bounds (r c : ℚ) (sr : ℕ) (w : List Frame)
    (sels : List PairSel) (s : PairSel)
    (h : pairSels r c sr w = Except.ok sels) (hs : s ∈ sels) :
    0 ≤ s.conf ∧ s.conf ≤ 1 := by
  obtain ⟨p, _, hstep⟩ := collectPairs_ok_mem _ s micPairs sels h hs
  obtain ⟨_, hsel⟩ := pairStep_ok_some _ _ _ _ hstep
  obtain ⟨ps, pk, _, _, _, _, hcf⟩ := pairSelOf_ok_some _ _ _ _ _ hsel
  constructor
  · rw [hcf]
    exact div_nonneg (abs_nonneg _) (maxAbsList_nonneg _)
  · rw [hcf]
    rcases eq_or_lt_of_le (maxAbsList_nonneg (correlate (w.map (fun f => f.ch p.1))
      (w.map (fun f => f.ch p.2)))) with hM | hM
    · rw [← hM, div_zero]
      norm_num
    · rw [div_le_one hM]
      exact abs_getD_le_maxAbsList _ _

/-! ### Inversion lemmas for the window pipeline -/

lemma cast_sum_conf (l : List PairSel) :
    (((l.map PairSel.conf).sum : ℚ) : ℝ) = (l.map (fun t => (t.conf : ℝ))).sum := by
  induction l with
  | nil => simp
  | cons s l ih => simp [ih]

lemma runWindows_ok_mem (f : ℕ → Except String (Option Row)) (row : Row) :
    ∀ (l : List ℕ) (rows : List Row),
      runWindows f l = Except.ok rows → row ∈ rows →
      ∃ i ∈ l, f i = Except.ok (some row) := by
  intro l
  induction l with
  | nil =>
    intro rows h hr
    simp only [runWindows, Except.ok.injEq] at h
    subst h
    cases hr
  | cons i is ih =>
    intro rows h hr
    simp only [runWindows] at h
    cases hfi : f i with
    | error e => rw [hfi] at h; cases h
    | ok o =>
      rw [hfi] at h
      cases o with
      | none =>
        obtain ⟨j, hj, hfj⟩ := ih rows h hr
        exact ⟨j, List.mem_cons_of_mem i hj, hfj⟩
      | some r =>
        cases hrest : runWindows f is with
        | error e => rw [hrest] at h; cases h
        | ok rest =>
          rw [hrest] at h
          simp only [Except.map, Except.ok.injEq] at h
          subst h
          rcases List.mem_cons.mp hr with h1 | h1
          · exact ⟨i, List.mem_cons_self i is, by rw [hfi, h1]⟩
          · obtain ⟨j, hj, hfj⟩ := ih rest hrest h1
            exact ⟨j, List.mem_cons_of_mem i hj, hfj⟩

lemma runWindows_pairwise (f : ℕ → Except String (Option Row))
    (S : Row → Row → Prop)
    (hmono : ∀ i j ri rj, i < j → f i = Except.ok (some ri) →
      f j = Except.ok (some rj) → S ri rj) :
    ∀ (l : List ℕ) (rows : List Row), l.Pairwise (· < ·) →
      runWindows f l = Except.ok rows → rows.Pairwise S := by
  intro l
  induction l with
  | nil =>
    intro rows _ h
    simp only [runWindows, Except.ok.injEq] at h
    subst h
    exact List.Pairwise.nil
  | cons i is ih =>
    intro rows hpw h
    obtain ⟨hi, his⟩ := List.pairwise_cons.mp hpw
    simp only [runWindows] at h
    cases hfi : f i with
    | error e => rw [hfi] at h; cases h
    | ok o =>
      rw [hfi] at h
      cases o with
      | none => exact ih rows his h
      | some r =>
        cases hrest : runWindows f is with
        | error e => rw [hrest] at h; cases h
        | ok rest =>
          rw [hrest] at h
          simp only [Except.map, Except.ok.injEq] at h
          subst h
          refine List.Pairwise.cons ?_ (ih rest his hrest)
          intro r' hr'
          obtain ⟨j, hj, hfj⟩ := runWindows_ok_mem f r' is rest hrest hr'
          exact hmono i j r r' (hi j hj) hfi hfj

lemma windowRow_ok_some (r c : ℚ) (sr ws : ℕ) (hop : ℤ) (data : List Frame)
    (i : ℕ) (row : Row) (h : windowRow r c sr ws hop data i = Except.ok (some row)) :
    row.ts = (((i : ℤ) * hop : ℤ) : ℚ) / (sr : ℚ) ∧
    ∃ a cf, calculate_doa r c sr
        (pySlice data ((i : ℤ) * hop) ((i : ℤ) * hop + (ws : ℤ))) = Except.ok (a, cf) ∧
      row.angle = a ∧ row.conf = cf := by
  simp only [windowRow] at h
  by_cases hE : 1/1000000 <
      energy (pySlice data ((i : ℤ) * hop) ((i : ℤ) * hop + (ws : ℤ)))
  · rw [if_pos hE] at h
    cases hcd : calculate_doa r c sr
        (pySlice data ((i : ℤ) * hop) ((i : ℤ) * hop + (ws : ℤ))) with
    | error e => rw [hcd] at h; cases h
    | ok pr =>
      obtain ⟨a, cf⟩ := pr
      rw [hcd] at h
      simp only [Except.ok.injEq, Option.some.injEq] at h
      subst h
      exact ⟨rfl, a, cf, rfl, rfl, rfl⟩
  · rw [if_neg hE] at h
    simp at h

lemma pairAngleDeg_bounds (r c : ℚ) (sr : ℕ) (s : PairSel) :
    0 ≤ pairAngleDeg r c sr s ∧ pairAngleDeg r c sr s < 360 := by
  unfold pairAngleDeg
  exact ⟨realMod_nonneg _ _ (by norm_num), realMod_lt _ _ (by norm_num)⟩

lemma fuseSels_ok_bounds (r c : ℚ) (sr : ℕ) (w : List Frame)
    (sels : List PairSel) (a : ℝ) (cf : ℚ)
    (hsels : pairSels r c sr w = Except.ok sels)
    (h : fuseSels r c sr sels = Except.ok (a, cf)) :
    0 ≤ a ∧ a < 360 ∧ 0 ≤ cf ∧ cf ≤ 1 := by
  cases sels with
  | nil =>
    simp only [fuseSels, Except.ok.injEq, Prod.mk.injEq] at h
    obtain ⟨ha, hcf⟩ := h
    subst ha
    subst hcf
    norm_num
  | cons s0 rest =>
    simp only [fuseSels] at h
    split at h
    · cases h
    next hsum =>
      simp only [Except.ok.injEq, Prod.mk.injEq] at h
      obtain ⟨ha, hcf⟩ := h
      subst ha
      subst hcf
      have hconfs : ∀ t ∈ s0 :: rest, 0 ≤ t.conf ∧ t.conf ≤ 1 := by
        intro t ht
        exact pairSels_conf_bounds r c sr w (s0 :: rest) t hsels ht
      have hWnn : 0 ≤ ((s0 :: rest).map PairSel.conf).sum := by
        refine List.sum_nonneg ?_
        intro q hq
        obtain ⟨t, ht, hqt⟩ := List.mem_map.mp hq
        exact hqt ▸ (hconfs t ht).1
      have hWpos : 0 < ((s0 :: rest).map PairSel.conf).sum :=
        lt_of_le_of_ne hWnn (Ne.symm hsum)
      have hWR : (0 : ℝ) < ((((s0 :: rest).map PairSel.conf).sum : ℚ) : ℝ) := by
        exact_mod_cast hWpos
      have hpos : ∃ t ∈ s0 :: rest, 0 < t.conf := by
        by_contra hno
        push_neg at hno
        refine hsum (List.sum_eq_zero ?_)
        intro q hq
        obtain ⟨t, ht, hqt⟩ := List.mem_map.mp hq
        exact hqt ▸ le_antisymm (hno t ht) (hconfs t ht).1
      refine ⟨?_, ?_, ?_, ?_⟩
      · refine div_nonneg (List.sum_nonneg ?_) hWR.le
        intro q hq
        obtain ⟨t, ht, hqt⟩ := List.mem_map.mp hq
        refine hqt ▸ mul_nonneg ?_ (pairAngleDeg_bounds r c sr t).1
        exact_mod_cast (hconfs t ht).1
      · rw [div_lt_iff₀ hWR]
        have hlt : ((s0 :: rest).map (fun t => (t.conf : ℝ) * pairAngleDeg r c sr t)).sum <
            ((s0 :: rest).map (fun t => (t.conf : ℝ) * 360)).sum := by
          refine List.sum_lt_sum _ _ ?_ ?_
          · intro t ht
            refine mul_le_mul_of_nonneg_left (pairAngleDeg_bounds r c sr t).2.le ?_
            exact_mod_cast (hconfs t ht).1
          · obtain ⟨t, ht, htpos⟩ := hpos
            refine ⟨t, ht, mul_lt_mul_of_pos_left (pairAngleDeg_bounds r c sr t).2 ?_⟩
            exact_mod_cast htpos
        refine lt_of_lt_of_le hlt (le_of_eq ?_)
        rw [List.sum_map_mul_right, ← cast_sum_conf, mul_comm]
      · exact div_nonneg hWpos.le (Nat.cast_nonneg _)
      · have hlen : (0 : ℚ) < ((s0 :: rest).length : ℚ) := by
          exact_mod_cast Nat.succ_pos rest.length
        rw [div_le_one hlen]
        have hb := List.sum_le_card_nsmul ((s0 :: rest).map PairSel.conf) 1 ?_
        · simpa using hb
        · intro q hq
          obtain ⟨t, ht, hqt⟩ := List.mem_map.mp hq
          exact hqt ▸ (hconfs t ht).2

lemma calculate_doa_ok_bounds (r c : ℚ) (sr : ℕ) (w : List Frame) (a : ℝ) (cf : ℚ)
    (h : calculate_doa r c sr w = Except.ok (a, cf)) :
    0 ≤ a ∧ a < 360 ∧ 0 ≤ cf ∧ cf ≤ 1 := by
  simp only [calculate_doa] at h
  cases hps : pairSels r c sr w with
  | error e => rw [hps] at h; cases h
  | ok sels =>
    rw [hps] at h
    exact fuseSels_ok_bounds r c sr w sels a cf hps h

/-! ### Ratio and clamp helpers -/

lemma abs_ratioQ_le_one (r c : ℚ) (sr : ℕ) (d : ℤ)
    (hr : 0 < r) (hc : 0 < c) (hsr : 0 < sr)
    (hd : |d| ≤ max_delay r c sr) : |ratioQ r c sr d| ≤ 1 := by
  have hsrQ : (0 : ℚ) < (sr : ℚ) := by exact_mod_cast hsr
  have hq : (0 : ℚ) < r * 2 / c * (sr : ℚ) := by positivity
  have hmd : ((max_delay r c sr : ℤ) : ℚ) ≤ r * 2 / c * (sr : ℚ) :=
    pythonInt_cast_le _ hq.le
  have hdq : |((d : ℤ) : ℚ)| ≤ r * 2 / c * (sr : ℚ) :=
    le_trans (by exact_mod_cast hd) hmd
  have h2r : (0 : ℚ) < 2 * r := by positivity
  rw [ratioQ, abs_div, abs_mul, abs_div, abs_of_pos hsrQ, abs_of_pos hc,
    abs_of_pos h2r, div_le_one h2r, div_mul_eq_mul_div, div_le_iff₀ hsrQ]
  have hcc : c / c = 1 := div_self hc.ne'
  calc |((d : ℤ) : ℚ)| * c ≤ r * 2 / c * (sr : ℚ) * c :=
        mul_le_mul_of_nonneg_right hdq hc.le
  _ = r * 2 * (sr : ℚ) * (c / c) := by ring
  _ = 2 * r * (sr : ℚ) := by rw [hcc]; ring

lemma clamp_eq_self (x : ℝ) (h : |x| ≤ 1) : clamp x = x := by
  obtain ⟨h1, h2⟩ := abs_le.mp h
  unfold clamp
  rw [min_eq_right h2, max_eq_right h1]

/-! ### Claim theorems -/

/-- C10: whenever a selected delay passes the admissibility check
`abs(delay) <= max_delay`, the argument the code hands to `math.asin` lies in
`[-1, 1]`: `max_delay = int(2 * radius / sound_speed * sample_rate)`
truncates toward zero, so the un-clamped ratio can never leave the `asin`
domain. -/
theorem c10_asin_argument_in_domain (r c : ℚ) (sr : ℕ) (d : ℤ)
    (hr : 0 < r) (hc : 0 < c) (hsr : 0 < sr)
    (hd : |d| ≤ max_delay r c sr) :
    |((ratioQ r c sr d : ℚ) : ℝ)| ≤ 1 := by
  have h := abs_ratioQ_le_one r c sr d hr hc hsr hd
  exact_mod_cast h

theorem c10_witness :
    ((0 : ℚ) < radius ∧ (0 : ℚ) < sound_speed ∧ 0 < 16000 ∧
      |(2 : ℤ)| ≤ max_delay radius sound_speed 16000) ∧
    |((ratioQ radius sound_speed 16000 2 : ℚ) : ℝ)| ≤ 1 :=
  ⟨⟨by with_unfolding_all decide, by with_unfolding_all decide, by with_unfolding_all decide, by with_unfolding_all decide⟩,
   c10_asin_argument_in_domain radius sound_speed 16000 2
     (by with_unfolding_all decide) (by with_unfolding_all decide) (by with_unfolding_all decide) (by with_unfolding_all decide)⟩

/-- C5: for every sensor pair with lower index `mic1 < 4` and every selected
lag passing `abs(delay) <= max_delay`, the code's candidate angle equals the
claimed formula `(90 * m1 + sign * degrees(asin(clamped ratio))) mod 360`
where `sign` is `+1` exactly for even `m1`: the clamp is a no-op for
admissible lags and the code's `mic1 in [0, 2]` test agrees with parity. -/
theorem c5_pair_angle_matches_spec (r c : ℚ) (sr : ℕ) (s : PairSel)
    (hr : 0 < r) (hc : 0 < c) (hsr : 0 < sr) (hm : s.mic1 < 4)
    (hd : |s.delay| ≤ max_delay r c sr) :
    pairAngleDeg r c sr s = specPairAngleDeg r c sr s := by
  obtain ⟨m1, dl, cf⟩ := s
  simp only [PairSel.mic1] at hm
  simp only [PairSel.delay] at hd
  have hcl : clamp ((ratioQ r c sr dl : ℚ) : ℝ) = ((ratioQ r c sr dl : ℚ) : ℝ) :=
    clamp_eq_self _ (by exact_mod_cast abs_ratioQ_le_one r c sr dl hr hc hsr hd)
  unfold pairAngleDeg specPairAngleDeg
  simp only [PairSel.mic1, PairSel.delay, hcl]
  interval_cases m1
  all_goals norm_num
  all_goals rw [sub_eq_add_neg]

theorem c5_witness :
    ((0 : ℚ) < radius ∧ (0 : ℚ) < sound_speed ∧ 0 < 16000 ∧
      (⟨0, 2, 1⟩ : PairSel).mic1 < 4 ∧
      |(⟨0, 2, 1⟩ : PairSel).delay| ≤ max_delay radius sound_speed 16000) ∧
    pairAngleDeg radius sound_speed 16000 ⟨0, 2, 1⟩ =
      specPairAngleDeg radius sound_speed 16000 ⟨0, 2, 1⟩ :=
  ⟨⟨by with_unfolding_all decide, by with_unfolding_all decide, by with_unfolding_all decide, by with_unfolding_all decide, by with_unfolding_all decide⟩,
   c5_pair_angle_matches_spec radius sound_speed 16000 ⟨0, 2, 1⟩
     (by with_unfolding_all decide) (by with_unfolding_all decide) (by with_unfolding_all decide) (by with_unfolding_all decide) (by with_unfolding_all decide)⟩

/-- C1 counterexample: at `max_delay = 2` (the value for the default geometry
at 16 kHz) the pair `xC1`, `yC1` makes the code select lag `0`, while the
claimed rule — the admissible lag of highest correlation — selects lag `2`,
whose correlation value is strictly higher; the out-of-range lags were
searched (they shaped the peak list) rather than excluded. -/
theorem c1_counterexample :
    codeSelDelay 2 xC1 yC1 = Except.ok (some 0) ∧
    specSelectDelay xC1 yC1 2 = some 2 ∧
    corrAt xC1 yC1 0 < corrAt xC1 yC1 2 :=
  ⟨by with_unfolding_all decide, by with_unfolding_all decide, by with_unfolding_all decide⟩

/-- C1 amended: the lag the code keeps comes from the strongest
distance-filtered `find_peaks` local maximum of the whole correlation
(searched over all lags and only then checked against `max_delay`): whenever
a lag is selected it is admissible, it is one of the found peaks, and its
correlation value is maximal among the found peaks — but an admissible
non-peak lag may carry a strictly higher correlation (see the
counterexample). -/
theorem c1_amended_selected_is_peak_argmax (md : ℤ) (x y : List ℚ) (d : ℤ)
    (h : codeSelDelay md x y = Except.ok (some d)) :
    |d| ≤ md ∧
    ∃ ps, find_peaks (correlate x y) md = Except.ok ps ∧
      (d + (((correlate x y).length / 2 : ℕ) : ℤ)).toNat ∈ ps ∧
      ∀ q ∈ ps, (correlate x y).getD q 0 ≤
        (correlate x y).getD (d + (((correlate x y).length / 2 : ℕ) : ℤ)).toNat 0 := by
  unfold codeSelDelay at h
  cases hps : pairSelOf md x y with
  | error e => rw [hps] at h; cases h
  | ok o =>
    rw [hps] at h
    cases o with
    | none => simp [Except.map] at h
    | some s =>
      obtain ⟨dl, cf⟩ := s
      simp only [Except.map, Option.map, Except.ok.injEq, Option.some.injEq] at h
      subst h
      obtain ⟨ps, pk, hfp, hpb, hdd, hdle, _⟩ := pairSelOf_ok_some md x y dl cf hps
      obtain ⟨hmem, hmax⟩ := pickBest_spec _ _ _ hpb
      have hpk : (dl + (((correlate x y).length / 2 : ℕ) : ℤ)).toNat = pk := by
        omega
      exact ⟨hdle, ps, hfp, hpk ▸ hmem, by rw [hpk]; exact hmax⟩

theorem c1_amended_witness :
    codeSelDelay 2 xC1 yC1 = Except.ok (some 0) ∧
    (|(0 : ℤ)| ≤ 2 ∧
      ∃ ps, find_peaks (correlate xC1 yC1) 2 = Except.ok ps ∧
        ((0 : ℤ) + (((correlate xC1 yC1).length / 2 : ℕ) : ℤ)).toNat ∈ ps ∧
        ∀ q ∈ ps, (correlate xC1 yC1).getD q 0 ≤
          (correlate xC1 yC1).getD
            ((0 : ℤ) + (((correlate xC1 yC1).length / 2 : ℕ) : ℤ)).toNat 0) :=
  ⟨by with_unfolding_all decide, c1_amended_selected_is_peak_argmax 2 xC1 yC1 0 (by with_unfolding_all decide)⟩

/-- C6: a window whose total squared-sample energy across the four channels
lies below the `1e-6` threshold (in particular an all-zero window) makes the
window loop emit nothing and fall through to the next window. -/
theorem c6_low_energy_window_skipped (r c : ℚ) (sr ws : ℕ) (hop : ℤ)
    (data : List Frame) (i : ℕ)
    (hE : energy (pySlice data ((i : ℤ) * hop) ((i : ℤ) * hop + (ws : ℤ))) <
      1/1000000) :
    windowRow r c sr ws hop data i = Except.ok none := by
  simp only [windowRow]
  rw [if_neg (not_lt.mpr hE.le)]

theorem c6_witness :
    energy (pySlice [(⟨0, 0, 0, 0⟩ : Frame), ⟨0, 0, 0, 0⟩]
        ((0 : ℤ) * 2) ((0 : ℤ) * 2 + ((2 : ℕ) : ℤ))) < 1/1000000 ∧
    windowRow radius sound_speed 16000 2 2 [⟨0, 0, 0, 0⟩, ⟨0, 0, 0, 0⟩] 0 =
      Except.ok none :=
  ⟨by with_unfolding_all decide,
   c6_low_energy_window_skipped radius sound_speed 16000 2 2
     [⟨0, 0, 0, 0⟩, ⟨0, 0, 0, 0⟩] 0 (by with_unfolding_all decide)⟩

/-! ### Zero-energy pair helpers -/

lemma corrAt_zero_left (x y : List ℚ) (hx : ∀ a ∈ x, a = 0) (lag : ℤ) :
    corrAt x y lag = 0 := by
  unfold corrAt
  refine List.sum_eq_zero ?_
  intro q hq
  obtain ⟨j, _, hjq⟩ := List.mem_map.mp hq
  rw [← hjq, getD_zero_of_all_zero x hx j, zero_mul]

lemma correlate_all_zero (x y : List ℚ) (hx : ∀ a ∈ x, a = 0) :
    ∀ a ∈ correlate x y, a = 0 := by
  intro a ha
  obtain ⟨k, _, hka⟩ := List.mem_map.mp ha
  exact hka ▸ corrAt_zero_left x y hx _

lemma localMaxima_of_all_zero (z : List ℚ) (hz : ∀ a ∈ z, a = 0) :
    localMaxima z = [] := by
  have hg : ∀ k : ℕ, z[k]?.getD 0 = 0 := by
    intro k
    have h := getD_zero_of_all_zero z hz k
    simpa [List.getD] using h
  unfold localMaxima
  simp [isPlateauPeak, hg]

/-- C7: a sensor pair whose two channel signals have zero total energy in the
window silently produces no estimate and raises nothing: its correlation is
identically zero, which has no strict local maximum, so the loop simply
continues with the remaining pairs. -/
theorem c7_zero_energy_pair_silent (md : ℤ) (x y : List ℚ) (hmd : 1 ≤ md)
    (hE : (x.map (fun q => q ^ 2)).sum + (y.map (fun q => q ^ 2)).sum = 0) :
    pairSelOf md x y = Except.ok none := by
  have hxnn : 0 ≤ (x.map (fun q => q ^ 2)).sum := by
    refine List.sum_nonneg ?_
    intro q hq
    obtain ⟨b, _, hb⟩ := List.mem_map.mp hq
    exact hb ▸ sq_nonneg b
  have hynn : 0 ≤ (y.map (fun q => q ^ 2)).sum := by
    refine List.sum_nonneg ?_
    intro q hq
    obtain ⟨b, _, hb⟩ := List.mem_map.mp hq
    exact hb ▸ sq_nonneg b
  have hx0 : (x.map (fun q => q ^ 2)).sum = 0 := le_antisymm (by linarith) hxnn
  have hx : ∀ a ∈ x, a = 0 := sum_sq_eq_zero x hx0
  have hlm : localMaxima (correlate x y) = [] :=
    localMaxima_of_all_zero _ (correlate_all_zero x y hx)
  unfold pairSelOf find_peaks
  rw [if_neg (not_lt.mpr hmd), hlm]
  simp [survivors, pairSelPick, pickBest, Except.map]

theorem c7_witness :
    ((1 : ℤ) ≤ 2 ∧
      (([(0 : ℚ), 0, 0].map (fun q => q ^ 2)).sum +
        ([(0 : ℚ), 0, 0].map (fun q => q ^ 2)).sum = 0)) ∧
    pairSelOf 2 [(0 : ℚ), 0, 0] [(0 : ℚ), 0, 0] = Except.ok none :=
  ⟨⟨by with_unfolding_all decide, by with_unfolding_all decide⟩,
   c7_zero_energy_pair_silent 2 [0, 0, 0] [0, 0, 0]
     (by with_unfolding_all decide) (by with_unfolding_all decide)⟩

/-- C3 counterexample: the code computes the hop with `int()` (truncation),
not `round()` — at `windowLength = 10`, `overlap = 1/4` the step is `7`
while the claimed `round` gives `8` — and a configuration whose hop resolves
to `0` (e.g. `overlap = 0.9999` at `windowLength = 4096`) dies with an
unhandled `ZeroDivisionError` from `//`, not with an `InvalidConfiguration`
error. -/
theorem c3_counterexample :
    hop_size 10 (1/4) = 7 ∧
    pythonRound ((10 : ℚ) * (1 - 1/4)) = 8 ∧
    process_audio radius sound_speed 16000 [] 4096 (9999/10000) =
      Except.error "ZeroDivisionError: integer division or modulo by zero" := by
  refine ⟨by with_unfolding_all decide, by with_unfolding_all decide, ?_⟩
  have h : hop_size 4096 (9999/10000 : ℚ) = 0 := by with_unfolding_all decide
  simp [process_audio, h]

/-- C3 amended: the window step is `hop_size = int(windowLength * (1 -
overlapFraction))` (truncation toward zero), and any configuration whose
overlap makes this `0` raises an unhandled `ZeroDivisionError` at the
`num_windows` floor division — there is no `InvalidConfiguration` error in
the code. -/
theorem c3_amended_zero_hop_zero_division (r c : ℚ) (sr : ℕ)
    (data : List Frame) (ws : ℕ) (ov : ℚ) (h : hop_size ws ov = 0) :
    process_audio r c sr data ws ov =
      Except.error "ZeroDivisionError: integer division or modulo by zero" := by
  simp [process_audio, h]

theorem c3_amended_witness :
    hop_size 4096 (9999/10000) = 0 ∧
    process_audio radius sound_speed 16000 [] 4096 (9999/10000) =
      Except.error "ZeroDivisionError: integer division or modulo by zero" :=
  ⟨by with_unfolding_all decide,
   c3_amended_zero_hop_zero_division radius sound_speed 16000 [] 4096
     (9999/10000) (by with_unfolding_all decide)⟩

/-- C8: an input with fewer samples than one window yields an empty result
sequence and no error, for any configuration whose hop is at least one:
`num_windows = (len - ws) // hop + 1` is then at most zero, so the window
loop never runs. -/
theorem c8_short_signal_empty_output (r c : ℚ) (sr ws : ℕ) (ov : ℚ)
    (data : List Frame) (hlen : data.length < ws) (hhop : 1 ≤ hop_size ws ov) :
    process_audio r c sr data ws ov = Except.ok [] := by
  have hne : ¬ hop_size ws ov = 0 := by omega
  have hneg : ((data.length : ℤ) - (ws : ℤ)) < 0 := by
    have : (data.length : ℤ) < (ws : ℤ) := by exact_mod_cast hlen
    omega
  have hfd : Int.fdiv ((data.length : ℤ) - (ws : ℤ)) (hop_size ws ov) < 0 :=
    Int.fdiv_neg' hneg (by omega)
  have hnw : (num_windows data.length ws (hop_size ws ov)).toNat = 0 := by
    unfold num_windows
    omega
  simp only [process_audio]
  rw [if_neg hne, hnw]
  simp [runWindows]

/-! ### Driver-level helpers -/

lemma hop_size_nonneg (ws : ℕ) (ov : ℚ) (hov : ov ≤ 1) : 0 ≤ hop_size ws ov := by
  unfold hop_size pythonInt
  have h : (0 : ℚ) ≤ (ws : ℚ) * (1 - ov) :=
    mul_nonneg (Nat.cast_nonneg ws) (by linarith)
  rw [if_pos h]
  exact Int.floor_nonneg.mpr h

/-- C9: the emitted rows appear in non-decreasing timestamp order, and every
row's timestamp is its window's start sample index `i * hop_size` divided by
the sample rate: the driver walks the window indices in increasing order and
emits sequentially. -/
theorem c9_output_time_ordered (r c : ℚ) (sr ws : ℕ) (ov : ℚ)
    (data : List Frame) (rows : List Row)
    (hsr : 0 < sr) (hov0 : 0 ≤ ov) (hov1 : ov < 1)
    (h : process_audio r c sr data ws ov = Except.ok rows) :
    rows.Pairwise (fun p q => p.ts ≤ q.ts) ∧
    ∀ row ∈ rows, ∃ i : ℕ,
      row.ts = (((i : ℤ) * hop_size ws ov : ℤ) : ℚ) / (sr : ℚ) := by
  simp only [process_audio] at h
  by_cases hz : hop_size ws ov = 0
  · rw [if_pos hz] at h
    cases h
  · rw [if_neg hz] at h
    have hhop : 1 ≤ hop_size ws ov := by
      have := hop_size_nonneg ws ov hov1.le
      omega
    have hsrQ : (0 : ℚ) < (sr : ℚ) := by exact_mod_cast hsr
    constructor
    · refine runWindows_pairwise _ _ ?_ _ rows (List.pairwise_lt_range _) h
      intro i j ri rj hij hfi hfj
      obtain ⟨hti, _⟩ := windowRow_ok_some r c sr ws (hop_size ws ov) data i ri hfi
      obtain ⟨htj, _⟩ := windowRow_ok_some r c sr ws (hop_size ws ov) data j rj hfj
      rw [hti, htj]
      have hij' : (i : ℤ) * hop_size ws ov ≤ (j : ℤ) * hop_size ws ov := by
        have hc : (i : ℤ) ≤ (j : ℤ) := by exact_mod_cast hij.le
        exact mul_le_mul_of_nonneg_right hc (by omega)
      have hcast : (((i : ℤ) * hop_size ws ov : ℤ) : ℚ) ≤
          (((j : ℤ) * hop_size ws ov : ℤ) : ℚ) := by exact_mod_cast hij'
      gcongr
    · intro row hrow
      obtain ⟨i, _, hfi⟩ := runWindows_ok_mem _ row _ rows h hrow
      obtain ⟨hti, _⟩ := windowRow_ok_some r c sr ws (hop_size ws ov) data i row hfi
      exact ⟨i, hti⟩

/-- C4: every emitted row carries an angle in `[0, 360)` and a confidence in
`[0, 1]`: each pair angle is normalized by `% 360`, each pair confidence is
a ratio of a correlation magnitude to the maximal one, and both survive the
weighted/unweighted averaging of the fusion step. -/
theorem c4_emitted_bounds (r c : ℚ) (sr ws : ℕ) (ov : ℚ)
    (data : List Frame) (rows : List Row) (row : Row)
    (h : process_audio r c sr data ws ov = Except.ok rows) (hrow : row ∈ rows) :
    0 ≤ row.angle ∧ row.angle < 360 ∧ 0 ≤ row.conf ∧ row.conf ≤ 1 := by
  simp only [process_audio] at h
  by_cases hz : hop_size ws ov = 0
  · rw [if_pos hz] at h
    cases h
  · rw [if_neg hz] at h
    obtain ⟨i, _, hfi⟩ := runWindows_ok_mem _ row _ rows h hrow
    obtain ⟨_, a, cf, hcd, hA, hC⟩ :=
      windowRow_ok_some r c sr ws (hop_size ws ov) data i row hfi
    obtain ⟨h1, h2, h3, h4⟩ := calculate_doa_ok_bounds r c sr _ a cf hcd
    rw [hA, hC]
    exact ⟨h1, h2, h3, h4⟩

/-! ### Concrete driver run on the no-pair window -/

lemma procAudio_dataC2 :
    process_audio radius sound_speed 16000 dataC2 3 0 =
      Except.ok [⟨0, 0, 0, "?"⟩] := by
  with_unfolding_all rfl

/-- C2 counterexample: the window `dataC2` passes the energy gate and no
sensor pair yields an estimate, yet the driver does emit a row for it — with
angle `0`, confidence `0` and direction `?` — rather than emitting
nothing. -/
theorem c2_counterexample :
    1/1000000 < energy dataC2 ∧
    pairSels radius sound_speed 16000 dataC2 = Except.ok [] ∧
    process_audio radius sound_speed 16000 dataC2 3 0 =
      Except.ok [⟨0, 0, 0, "?"⟩] :=
  ⟨by with_unfolding_all decide, by with_unfolding_all decide, procAudio_dataC2⟩

/-- C2 amended: for a window that passes the energy gate but yields no
PairEstimate, the driver emits a row with angle `0`, confidence `0` and
direction `?` (from `return 0, 0` and the unconditional print), instead of
emitting nothing. -/
theorem c2_amended_zero_row_emitted (r c : ℚ) (sr ws : ℕ) (hop : ℤ)
    (data : List Frame) (i : ℕ)
    (hE : 1/1000000 <
      energy (pySlice data ((i : ℤ) * hop) ((i : ℤ) * hop + (ws : ℤ))))
    (hP : pairSels r c sr
      (pySlice data ((i : ℤ) * hop) ((i : ℤ) * hop + (ws : ℤ))) = Except.ok []) :
    windowRow r c sr ws hop data i =
      Except.ok (some ⟨(((i : ℤ) * hop : ℤ) : ℚ) / (sr : ℚ), 0, 0, "?"⟩) := by
  have hcd : calculate_doa r c sr
      (pySlice data ((i : ℤ) * hop) ((i : ℤ) * hop + (ws : ℤ))) =
      Except.ok (0, 0) := by
    rw [calculate_doa, hP]
    rfl
  simp only [windowRow]
  rw [if_pos hE, hcd]
  norm_num

theorem c2_amended_witness :
    (1/1000000 <
      energy (pySlice dataC2 (((0 : ℕ) : ℤ) * 3) (((0 : ℕ) : ℤ) * 3 + ((3 : ℕ) : ℤ))) ∧
      pairSels radius sound_speed 16000
        (pySlice dataC2 (((0 : ℕ) : ℤ) * 3) (((0 : ℕ) : ℤ) * 3 + ((3 : ℕ) : ℤ))) =
        Except.ok []) ∧
    windowRow radius sound_speed 16000 3 3 dataC2 0 =
      Except.ok (some ⟨((((0 : ℕ) : ℤ) * 3 : ℤ) : ℚ) / ((16000 : ℕ) : ℚ), 0, 0, "?"⟩) :=
  ⟨⟨by with_unfolding_all decide, by with_unfolding_all decide⟩,
   c2_amended_zero_row_emitted radius sound_speed 16000 3 3 dataC2 0
     (by with_unfolding_all decide) (by with_unfolding_all decide)⟩

theorem c4_witness :
    process_audio radius sound_speed 16000 dataC2 3 0 =
      Except.ok [⟨0, 0, 0, "?"⟩] ∧
    (0 ≤ (Row.mk 0 0 0 "?").angle ∧ (Row.mk 0 0 0 "?").angle < 360 ∧
      0 ≤ (Row.mk 0 0 0 "?").conf ∧ (Row.mk 0 0 0 "?").conf ≤ 1) :=
  ⟨procAudio_dataC2,
   c4_emitted_bounds radius sound_speed 16000 3 0 dataC2
     [⟨0, 0, 0, "?"⟩] ⟨0, 0, 0, "?"⟩ procAudio_dataC2 (List.mem_singleton.mpr rfl)⟩

theorem c9_witness :
    (0 < 16000 ∧ (0 : ℚ) ≤ 0 ∧ (0 : ℚ) < 1 ∧
      process_audio radius sound_speed 16000 dataC2 3 0 =
        Except.ok [⟨0, 0, 0, "?"⟩]) ∧
    ([(⟨0, 0, 0, "?"⟩ : Row)].Pairwise (fun p q => p.ts ≤ q.ts) ∧
      ∀ row ∈ [(⟨0, 0, 0, "?"⟩ : Row)], ∃ i : ℕ,
        row.ts = (((i : ℤ) * hop_size 3 0 : ℤ) : ℚ) / ((16000 : ℕ) : ℚ)) :=
  ⟨⟨by norm_num, le_refl 0, by norm_num, procAudio_dataC2⟩,
   c9_output_time_ordered radius sound_speed 16000 3 0 dataC2
     [⟨0, 0, 0, "?"⟩] (by norm_num) (le_refl 0) (by norm_num) procAudio_dataC2⟩

theorem c8_witness :
    (([] : List Frame).length < 3 ∧ 1 ≤ hop_size 3 (1/2)) ∧
    process_audio radius sound_speed 16000 [] 3 (1/2) = Except.ok [] :=
  ⟨⟨by with_unfolding_all decide, by with_unfolding_all decide⟩,
   c8_short_signal_empty_output radius sound_speed 16000 3 (1/2) []
     (by with_unfolding_all decide) (by with_unfolding_all decide)⟩
